import Mathlib

/-!
Verification of `kawin/mobility_fitting/manual_fitting.py`.

The Python module fits mobility models (activation energy Q and prefactor D0)
to datasets.  Its pure computational core is embedded below:

* a Python `dict` (insertion ordered, unique keys) is embedded as an
  association list with `dictSet` / `dictGet?` mirroring item assignment and
  lookup;
* numeric float values are embedded as `ℚ` (every Python float is a rational)
  except in `least_squares_fit`, where `np.log` forces `ℝ`;
* the symengine expressions built by `fit` are embedded as the inductive
  `MobExpr` together with an evaluation function; `Piecewise ((e, And (lo ≤ T,
  T < hi)), (0, True))` becomes the constructor `MobExpr.piecewise lo hi e`;
* external collaborators (`np.linalg.lstsq`, `pycalphad.Model`,
  `PhaseRecordFactory`, `local_equilibrium`, the site-fraction generator used
  for equilibrium data) are opaque: they are taken as function parameters.
-/

namespace ManualFitting

/-- Python dict assignment `d[k] = val`: replaces the value at `k` keeping the
key's position when `k` is already present, otherwise appends `(k, val)`. -/
def dictSet {α β : Type} [DecidableEq α] (d : List (α × β)) (k : α) (val : β) :
    List (α × β) :=
  if d.any (fun p => decide (p.1 = k)) then
    d.map (fun p => if p.1 = k then (k, val) else p)
  else
    d ++ [(k, val)]

/-- Python dict lookup `d.get(k)`. -/
def dictGet? {α β : Type} [DecidableEq α] (d : List (α × β)) (k : α) : Option β :=
  (d.find? (fun p => decide (p.1 = k))).map Prod.snd

/-! ### `least_squares_fit` (manual_fitting.py lines 76-96)

`np.linalg.lstsq` is an external collaborator; it enters the embedding as the
function parameter `lstsq`.  `k = len(A[0])` raises on an empty matrix in
Python, so theorems about the result carry the hypothesis `A ≠ []`. -/

/-- Denominator of the AICC small-sample correction chosen by the branch on
line 91 of manual_fitting.py: `-n + pk + 3` when `pk >= n-1`, else
`n - pk - 1`. -/
noncomputable def aiccDenominator (n : ℕ) (pk : ℝ) : ℝ :=
  if pk ≥ (n : ℝ) - 1 then -(n : ℝ) + pk + 3 else (n : ℝ) - pk - 1

/-- The AICC small-sample correction of lines 91-94:
`(2*pk**2 + 2*pk) / (-n + pk + 3)` when `pk >= n-1`, else
`(2*pk**2 + 2*pk) / (n - pk - 1)`. -/
noncomputable def aiccCorrection (n : ℕ) (pk : ℝ) : ℝ :=
  if pk ≥ (n : ℝ) - 1 then (2 * pk ^ 2 + 2 * pk) / (-(n : ℝ) + pk + 3)
  else (2 * pk ^ 2 + 2 * pk) / ((n : ℝ) - pk - 1)

theorem aiccCorrection_eq_div (n : ℕ) (pk : ℝ) :
    aiccCorrection n pk = (2 * pk ^ 2 + 2 * pk) / aiccDenominator n pk := by
  unfold aiccCorrection aiccDenominator
  by_cases h : pk ≥ (n : ℝ) - 1 <;> simp [h]

/-- Dot product of a matrix row with the coefficient vector:
one entry of `np.matmul(A, x)`. -/
def dotProd (row x : List ℝ) : ℝ :=
  ((row.zip x).map (fun q => q.1 * q.2)).sum

/-- Residual sum of squares `np.sum((b_pred - b)**2)` (lines 87-88), with
`b_pred = np.matmul(A, x)`. -/
def residualSumSquares (A : List (List ℝ)) (b x : List ℝ) : ℝ :=
  (((A.map (fun row => dotProd row x)).zip b).map (fun q => (q.1 - q.2) ^ 2)).sum

/-- `least_squares_fit(A, b, p)` (lines 76-96): solves via the opaque `lstsq`,
then returns the coefficients together with the AICC score
`2*pk + n*log(rss/n) + correction`. -/
noncomputable def least_squares_fit (lstsq : List (List ℝ) → List ℝ → List ℝ)
    (A : List (List ℝ)) (b : List ℝ) (p : ℝ) : List ℝ × ℝ :=
  let x := lstsq A b
  let k := A.headI.length
  let n := A.length
  let rss := residualSumSquares A b x
  let pk := p * k
  let aic := 2 * pk + n * Real.log (rss / n)
  let correction := aiccCorrection n pk
  (x, aic + correction)

/-! ### Symbolic expressions built by `fit` (manual_fitting.py lines 206-221)

`fit` builds symengine expressions out of numeric constants, the freshly
minted symbols `_vname(vIndex)`, the temperature symbol `v.T`, sums, products,
and the guard `Piecewise((e, And(lo <= v.T, v.T < hi)), (0, True))`.  A minted
symbol is identified here by its allocation index (modelled from the spec:
`_vname` of `kawin.mobility_fitting.utils` is not in src/; per the spec it
mints a globally unique name determined by the running index). -/

/-- Symbolic expressions: the fragment of symengine used by `fit`. -/
inductive MobExpr : Type where
  | const : ℚ → MobExpr
  | sym : ℕ → MobExpr
  | tempT : MobExpr
  | add : MobExpr → MobExpr → MobExpr
  | mul : MobExpr → MobExpr → MobExpr
  | piecewise : ℚ → ℚ → MobExpr → MobExpr
  deriving Repr

/-- Evaluation of a `MobExpr` at symbol valuation `σ` and temperature `t`.
`piecewise lo hi e` evaluates to `e` when `lo ≤ t < hi` and to `0` otherwise,
matching `Piecewise((e, And(lo <= v.T, v.T < hi)), (0, True))`. -/
def MobExpr.eval (σ : ℕ → ℚ) (t : ℚ) : MobExpr → ℚ
  | .const c => c
  | .sym i => σ i
  | .tempT => t
  | .add a b => a.eval σ t + b.eval σ t
  | .mul a b => a.eval σ t * b.eval σ t
  | .piecewise lo hi e => if lo ≤ t ∧ t < hi then e.eval σ t else 0

/-- Modelled from the spec: `MobilityTerm` lives in
`kawin.mobility_fitting.utils` (not in src/).  Per the spec it carries a
constituent array, a polynomial order and an accumulating expression, and the
constructor `MobilityTerm(constituent_array, order)` zero-initializes the
expression. -/
structure MobilityTerm : Type where
  constituent_array : List (List String)
  order : ℕ
  expr : MobExpr

instance : Inhabited MobilityTerm := ⟨⟨[], 0, MobExpr.const 0⟩⟩

/-- A term's identity for deduplication. -/
def TermKey : Type := List (List String) × ℕ

instance : DecidableEq TermKey := fun a b =>
  inferInstanceAs (Decidable (Prod.mk a.1 a.2 = Prod.mk b.1 b.2))

/-- Modelled from the spec: `MobilityTerm` equality (used by Python's
`term not in fitted_mobility_model` and `fitted_mobility_model.index(term)`)
is structural on `(constituent_array, order)`, never object identity. -/
def termMatches (m : MobilityTerm) (key : TermKey) : Bool :=
  decide (m.constituent_array = key.1) && decide (m.order = key.2)

/-- `fitted_mobility_model[fitted_mobility_model.index(term)].expr += e`:
update the first structurally equal term in the list. -/
def updateFirst (f : MobExpr → MobExpr) (key : TermKey) :
    List MobilityTerm → List MobilityTerm
  | [] => []
  | m :: ms =>
      if termMatches m key then
        ⟨m.constituent_array, m.order, f m.expr⟩ :: ms
      else
        m :: updateFirst f key ms

/-- The mutable state of `fit`'s accumulation loop:
`fitted_mobility_model`, `symbols` and `vIndex` (lines 120-122). -/
structure FitState : Type where
  model : List MobilityTerm
  symbols : List (ℕ × MobExpr)
  vIndex : ℕ

/-- One iteration of the loop on lines 208-217 for a selected
`(term, coef)` pair of the best model:

* append a zero-initialized `MobilityTerm` if the term key is absent;
* register `symbols[_vname(vIndex)] = Piecewise((coef, 1.0 <= T < 10000), (0, True))`;
* add `Symbol(var_name) * multiplier` onto the matching term's expression;
* increment `vIndex`. -/
def accumStep (multiplier : MobExpr) (st : FitState) (tc : TermKey × ℚ) :
    FitState :=
  let key := tc.1
  let coef := tc.2
  let model₁ :=
    if st.model.any (fun m => termMatches m key) then st.model
    else st.model ++ [⟨key.1, key.2, MobExpr.const 0⟩]
  let model₂ :=
    updateFirst (fun e => MobExpr.add e (MobExpr.mul (MobExpr.sym st.vIndex) multiplier))
      key model₁
  { model := model₂
    symbols := st.symbols ++ [(st.vIndex, MobExpr.piecewise 1 10000 (MobExpr.const coef))]
    vIndex := st.vIndex + 1 }

/-- One fitting pass (`Q` or `D0`): fold the accumulation loop over the
selected `(term, coef)` pairs, with that pass's `multiplier`
(`1` for `Q`, `v.T` for `D0`, line 143-146). -/
def accumPass (multiplier : MobExpr) (contribs : List (TermKey × ℚ))
    (st : FitState) : FitState :=
  contribs.foldl (accumStep multiplier) st

/-- The accumulation state after the whole loop over
`data_types = {Q: (..., 1, ...), D0: (..., v.T, ...)}` in `fit`:
the `Q` pass (multiplier `1`) then the `D0` pass (multiplier `v.T`),
starting from the empty model with `vIndex = find_last_variable(database)`
(modelled from the spec: `find_last_variable` is not in src/; per the spec it
returns the next unused symbol index of the database, so every pre-existing
coefficient has index `< v0`). -/
def fitAccum (qContribs d0Contribs : List (TermKey × ℚ)) (v0 : ℕ) : FitState :=
  accumPass MobExpr.tempT d0Contribs
    (accumPass (MobExpr.const 1) qContribs ⟨[], [], v0⟩)

/-- Lines 220-221: each accumulated term's expression is wrapped in
`Piecewise((f.expr, And(1.0 <= v.T, v.T < 6000)), (0, True))`. -/
def finalizeModel (model : List MobilityTerm) : List MobilityTerm :=
  model.map (fun f => ⟨f.constituent_array, f.order, MobExpr.piecewise 1 6000 f.expr⟩)

/-- The value returned by `fit` (line 223), restricted to its accumulation
core: the finalized mobility model and the symbol table. -/
def fitRun (qContribs d0Contribs : List (TermKey × ℚ)) (v0 : ℕ) :
    List MobilityTerm × List (ℕ × MobExpr) :=
  let st := fitAccum qContribs d0Contribs v0
  (finalizeModel st.model, st.symbols)

/-- The symbol-table entries minted for a list of coefficients starting at
index `i`: entry `i + j` holds the `j`-th coefficient guarded on the window
`1 ≤ T < 10000`. -/
def mintSyms : ℕ → List ℚ → List (ℕ × MobExpr)
  | _, [] => []
  | i, c :: cs => (i, MobExpr.piecewise 1 10000 (MobExpr.const c)) :: mintSyms (i + 1) cs

/-- Valuation of minted symbols induced by the returned symbol table at
temperature `t`: a symbol evaluates to its registered piecewise value. -/
def tableEval (syms : List (ℕ × MobExpr)) (t : ℚ) (i : ℕ) : ℚ :=
  match syms.lookup i with
  | some e => e.eval (fun _ => 0) t
  | none => 0

/-! ### State variables and conditions -/

/-- The pycalphad state variables used as condition keys: temperature,
pressure, mole count, reference energy, and the mole fraction `v.X(name)`
(whose pycalphad name is `"X_" ++ name`, so `key.name[2:] = name`). -/
inductive StateVar : Type where
  | tempT : StateVar
  | presP : StateVar
  | molesN : StateVar
  | refGE : StateVar
  | moleFrac : String → StateVar
  deriving DecidableEq, Repr

/-- A conditions mapping, a Python dict `{state variable: value}`. -/
def Conditions : Type := List (StateVar × ℚ)

/-! ### `SiteFractionGenerator.__call__` (manual_fitting.py lines 61-74) -/

/-- The composition dict built by `SiteFractionGenerator.__call__`
(lines 65-74) and passed to the subclass hook `create_site_fractions`:

* `comps_no_va = list(set(components) - set(['VA']))`;
* `composition = {c: 1 for c in comps_no_va}`;
* for every condition in order whose key is a mole fraction `v.X(name)`,
  subtract its value from every entry, then set `composition[name] = val`.

Python's `set` iteration order is unspecified; the embedding fixes the order
of first appearance (`dedup`), which leaves the key-value mapping
unchanged. -/
def siteFractionComposition (components : List String)
    (conditions : Conditions) : List (String × ℚ) :=
  let comps_no_va := (components.dedup).filter (fun c => c ≠ "VA")
  let composition := comps_no_va.map (fun c => (c, (1 : ℚ)))
  conditions.foldl
    (fun comp kv =>
      match kv.1 with
      | .moleFrac name => dictSet (comp.map (fun p => (p.1, p.2 - kv.2))) name kv.2
      | _ => comp)
    composition

/-! ### `EquilibriumSiteFractionGenerator.__call__` condition overrides
(manual_fitting.py lines 22, 47-49)

`__call__` writes every entry of `self._conditions_override` into the
caller-supplied `conditions` dict in place before solving.  The default
override dict (line 22) is `{v.N: 1, v.GE: 0}`.  State passing makes the
mutation explicit: the returned dict is the caller's mapping after the
call. -/

/-- The loop on lines 47-49: `for oc in override: conditions[oc] = override[oc]`. -/
def applyOverrides (override : List (StateVar × ℚ)) (conditions : Conditions) :
    Conditions :=
  override.foldl (fun cs p => dictSet cs p.1 p.2) conditions

/-- Line 22: `self._conditions_override = {v.N: 1, v.GE: 0}`. -/
def defaultOverride : List (StateVar × ℚ) :=
  [(StateVar.molesN, 1), (StateVar.refGE, 0)]

/-! ### `EquilibriumSiteFractionGenerator` caching
(manual_fitting.py lines 30-40)

`Model`, `PhaseRecordFactory` and the constituent extraction are external
pycalphad collaborators; they enter as the opaque parameters `buildModel`,
`buildRec` and `consOf`. -/

/-- Lexicographic comparison of character lists by code point. -/
def charListLe : List Char → List Char → Bool
  | [], _ => true
  | _ :: _, [] => false
  | a :: as, b :: bs =>
      if a < b then true else if b < a then false else charListLe as bs

/-- Python's string ordering, lexicographic by code point. -/
def strLe (a b : String) : Bool := charListLe a.data b.data

/-- `_generate_comps_key`'s `comps = sorted(components)` (line 31). -/
def sortedComps (components : List String) : List String :=
  components.insertionSort (fun a b => strLe a b = true)

/-- The cache key `frozenset(sorted(components))` (line 32): two component
collections give the same frozenset exactly when their sorted, deduplicated
canonical forms agree, so the canonical form itself is the key. -/
def canonKey (components : List String) : List String :=
  (sortedComps components).dedup

/-- The cache dictionaries `models`, `phase_records`, `constituents` of an
`EquilibriumSiteFractionGenerator` (lines 17-19), keyed by `canonKey`. -/
structure EqGenState (Mo Rec : Type) : Type where
  models : List (List String × Mo)
  phase_records : List (List String × Rec)
  constituents : List (List String × List String)

/-- `_generate_phase_records` (lines 34-40): on a key miss, build the model
from `sorted(components)`, the phase records, and the sorted constituent list
of the built model, and store all three under the key; on a hit, do
nothing. -/
def generatePhaseRecords {Mo Rec : Type} (buildModel : List String → Mo)
    (buildRec : List String → Mo → Rec) (consOf : Mo → List String)
    (st : EqGenState Mo Rec) (components : List String) : EqGenState Mo Rec :=
  let key := canonKey components
  if st.models.any (fun p => decide (p.1 = key)) then st
  else
    let m := buildModel (sortedComps components)
    { models := st.models ++ [(key, m)]
      phase_records := st.phase_records ++ [(key, buildRec (sortedComps components) m)]
      constituents := st.constituents ++ [(key, consOf m)] }

/-- The cached bundle returned for a component collection: the model, phase
record and ordered constituent list stored under its canonical key. -/
def cachedContext {Mo Rec : Type} (st : EqGenState Mo Rec)
    (components : List String) :
    Option Mo × Option Rec × Option (List String) :=
  (dictGet? st.models (canonKey components),
   dictGet? st.phase_records (canonKey components),
   dictGet? st.constituents (canonKey components))

/-! ### The record-collection loop of `fit` (manual_fitting.py lines 152-185)

For each dataset record the loop appends site-fraction rows to
`site_fractions` and concatenates the transformed, flattened values onto `Y`.
A record with a `solver` block contributes one row per
`(sublattice_configurations, sublattice_occupancies)` pair; a record without
one contributes one generated row per flattened value.  The equilibrium
site-fraction generator and the flattened condition grid feeding it are
opaque here: they enter as the parameter `sfgen`, mapping the record's
components and the flattened index `i` to the generated row (line 182). -/

/-- A site-fraction row: dict from `v.SiteFraction(phase, sub_index, species)`
to occupancy. -/
def SFMap : Type := List ((String × ℕ × String) × ℚ)

/-- The `solver` block of a dataset record: `sublattice_configurations` and
`sublattice_occupancies`, each configuration a list over sublattices of a
list of species/occupancies (`np.atleast_1d` normalizes scalar entries to
one-element lists). -/
structure SolverBlock : Type where
  sublattice_configurations : List (List (List String))
  sublattice_occupancies : List (List (List ℚ))

/-- A dataset record as consumed by the loop: its components, its flattened
`values` array, and an optional `solver` block. -/
structure DatasetRecord : Type where
  components : List String
  values : List ℚ
  solver : Option SolverBlock

/-- Lines 168-177: build one site-fraction dict from one
configuration/occupancy pair, walking sublattices with `sub_index` and
zipping species against occupancies. -/
def solverSiteFractions (phase : String) (conf : List (List String))
    (occ : List (List ℚ)) : SFMap :=
  ((conf.zip occ).enum).foldl
    (fun sf p =>
      (p.2.1.zip p.2.2).foldl
        (fun sf' so => dictSet sf' (phase, p.1, so.1) so.2) sf)
    []

/-- Lines 155-185 for a single record: the site-fraction rows it appends and
the transformed values it concatenates onto `Y`. -/
def collectRecord (phase : String) (transform : ℚ → ℚ)
    (sfgen : List String → ℕ → SFMap) (d : DatasetRecord) :
    List SFMap × List ℚ :=
  let y_sub := d.values.map transform
  match d.solver with
  | some sb =>
      ((sb.sublattice_configurations.zip sb.sublattice_occupancies).map
        (fun p => solverSiteFractions phase p.1 p.2), y_sub)
  | none =>
      ((List.range y_sub.length).map (fun i => sfgen d.components i), y_sub)

/-- The whole collection loop: `site_fractions` and `Y` accumulated over the
matching records. -/
def collectData (phase : String) (transform : ℚ → ℚ)
    (sfgen : List String → ℕ → SFMap) (data : List DatasetRecord) :
    List SFMap × List ℚ :=
  data.foldl
    (fun acc d =>
      let r := collectRecord phase transform sfgen d
      (acc.1 ++ r.1, acc.2 ++ r.2))
    ([], [])

/-- A deliberately mismatched record: its `solver` block carries ONE
sublattice configuration (species `A` fully occupying a single sublattice)
while `values` flattens to TWO target values. -/
def misalignedRecord : DatasetRecord :=
  { components := ["A", "B", "VA"]
    values := [1, 2]
    solver := some ⟨[[["A"]]], [[[1]]]⟩ }

/-! ## Theorems

First the library of facts about the embedded dictionaries, then the
verification of the specified claims. -/

theorem dictGet?_nil {α β : Type} [DecidableEq α] (k : α) :
    dictGet? ([] : List (α × β)) k = none := rfl

theorem dictGet?_cons {α β : Type} [DecidableEq α] (p : α × β) (d : List (α × β))
    (k : α) :
    dictGet? (p :: d) k = if p.1 = k then some p.2 else dictGet? d k := by
  by_cases h : p.1 = k <;> simp [dictGet?, List.find?, h]

theorem dictGet?_set_self {α β : Type} [DecidableEq α] (d : List (α × β)) (k : α)
    (val : β) : dictGet? (dictSet d k val) k = some val := by
  unfold dictSet
  by_cases hmem : d.any (fun p => decide (p.1 = k))
  · simp only [hmem, if_pos]
    induction d with
    | nil => simp at hmem
    | cons p d ih =>
      by_cases hp : p.1 = k
      · simp [hp, dictGet?_cons]
      · simp only [List.any_cons, hp, decide_eq_true_eq, Bool.false_or,
          decide_False] at hmem
        simp [List.map_cons, hp, dictGet?_cons, ih hmem]
  · simp only [hmem, if_neg, Bool.not_eq_true]
    induction d with
    | nil => simp [dictGet?_cons]
    | cons p d ih =>
      simp only [List.any_cons, Bool.or_eq_true, decide_eq_true_eq] at hmem
      push_neg at hmem
      simp [dictGet?_cons, hmem.1, ih (by simpa using hmem.2)]

theorem dictGet?_update_ne {α β : Type} [DecidableEq α] (d : List (α × β))
    (k k' : α) (val : β) (h : k' ≠ k) :
    dictGet? (d.map (fun p => if p.1 = k then (k, val) else p)) k' =
      dictGet? d k' := by
  induction d with
  | nil => rfl
  | cons p d ih =>
    by_cases hp : p.1 = k
    · have h1 : ¬ (k = k') := fun hk => h hk.symm
      have h2 : ¬ (p.1 = k') := hp ▸ h1
      simp [hp, dictGet?_cons, h1, h2, ih]
    · by_cases hpk' : p.1 = k'
      · simp only [List.map_cons, if_neg hp, dictGet?_cons, if_pos hpk']
      · simp only [List.map_cons, if_neg hp, dictGet?_cons, if_neg hpk', ih]

theorem dictGet?_append_ne {α β : Type} [DecidableEq α] (d : List (α × β))
    (k k' : α) (val : β) (h : k' ≠ k) :
    dictGet? (d ++ [(k, val)]) k' = dictGet? d k' := by
  induction d with
  | nil => simp [dictGet?_cons, Ne.symm h, dictGet?_nil]
  | cons p d ih =>
    by_cases hpk' : p.1 = k' <;> simp [dictGet?_cons, hpk', ih]

theorem dictGet?_set_ne {α β : Type} [DecidableEq α] (d : List (α × β))
    (k k' : α) (val : β) (h : k' ≠ k) :
    dictGet? (dictSet d k val) k' = dictGet? d k' := by
  unfold dictSet
  by_cases hmem : d.any (fun p => decide (p.1 = k)) <;>
    simp [hmem, dictGet?_update_ne d k k' val h, dictGet?_append_ne d k k' val h]

theorem dictGet?_map_values {α β : Type} [DecidableEq α] (d : List (α × β))
    (f : β → β) (k : α) :
    dictGet? (d.map (fun p => (p.1, f p.2))) k = (dictGet? d k).map f := by
  induction d with
  | nil => rfl
  | cons p d ih =>
    by_cases hp : p.1 = k <;> simp [dictGet?_cons, hp, ih]

theorem dictGet?_const_of_mem {α β : Type} [DecidableEq α] (l : List α) (a : β)
    (k : α) (h : k ∈ l) :
    dictGet? (l.map (fun c => (c, a))) k = some a := by
  induction l with
  | nil => cases h
  | cons c l ih =>
    rcases List.mem_cons.mp h with h | h
    · simp [dictGet?_cons, h]
    · by_cases hc : c = k
      · simp [dictGet?_cons, hc]
      · simp [dictGet?_cons, hc, ih h]

theorem dictGet?_const_of_not_mem {α β : Type} [DecidableEq α] (l : List α)
    (a : β) (k : α) (h : k ∉ l) :
    dictGet? (l.map (fun c => (c, a))) k = none := by
  induction l with
  | nil => rfl
  | cons c l ih =>
    have hc : ¬ c = k := fun hk => h (hk ▸ List.mem_cons_self c l)
    simp [dictGet?_cons, hc, ih (fun hk => h (List.mem_cons_of_mem c hk))]

/-- C2: for a design matrix `A` with `n` rows and `k` columns, a target
vector `b` and a penalty `p`, `least_squares_fit` returns an AICC score equal
to `2*p*k + n*ln(RSS/n)` plus the correction `2*(pk)^2 + 2*(pk)` divided by
`n - pk - 1` when `pk < n-1` and by `-n + pk + 3` when `pk >= n-1`, where
`RSS` is the residual sum of squares of the least-squares solution. -/
theorem least_squares_fit_aicc_formula
    (lstsq : List (List ℝ) → List ℝ → List ℝ) (A : List (List ℝ)) (b : List ℝ)
    (p : ℝ) (hA : A ≠ []) :
    (p * A.headI.length < (A.length : ℝ) - 1 →
      (least_squares_fit lstsq A b p).2 =
        2 * (p * A.headI.length) +
          A.length * Real.log (residualSumSquares A b (lstsq A b) / A.length) +
          (2 * (p * A.headI.length) ^ 2 + 2 * (p * A.headI.length)) /
            ((A.length : ℝ) - p * A.headI.length - 1)) ∧
    (p * A.headI.length ≥ (A.length : ℝ) - 1 →
      (least_squares_fit lstsq A b p).2 =
        2 * (p * A.headI.length) +
          A.length * Real.log (residualSumSquares A b (lstsq A b) / A.length) +
          (2 * (p * A.headI.length) ^ 2 + 2 * (p * A.headI.length)) /
            (-(A.length : ℝ) + p * A.headI.length + 3)) := by
  constructor
  · intro h
    simp only [least_squares_fit, aiccCorrection]
    rw [if_neg (not_le.mpr h)]
  · intro h
    simp only [least_squares_fit, aiccCorrection]
    rw [if_pos h]

/-- Witness for C2: `A = [[4]]`, `b = [5]`, `p = 1`, and an `lstsq` oracle
answering `[2]`: here `n = k = 1`, `pk = 1 ≥ n - 1 = 0`, `RSS = (8-5)^2 = 9`,
and the sign-flipped branch of the formula applies. -/
theorem least_squares_fit_aicc_formula_witness :
    (least_squares_fit (fun _ _ => [2]) [[4]] [5] 1).2 =
      2 * 1 + 1 * Real.log (9 / 1) + (2 * 1 + 2 * 1) / (-1 + 1 + 3) := by
  have h := (least_squares_fit_aicc_formula (fun _ _ => [2]) [[4]] [5] 1
    (by simp)).2 (by norm_num)
  have hrss : residualSumSquares [[(4 : ℝ)]] [5] [2] = 9 := by
    simp [residualSumSquares, dotProd]
    norm_num
  rw [hrss] at h
  simpa using h

/-- C3: for `n ≥ 1`, `k ≥ 1`, `p > 0` the denominator of the AICC correction
selected by `least_squares_fit` is nonzero, and at `p*k = n-1` exactly the
sign-flipped branch is taken with denominator `-n + pk + 3 = 2`. -/
theorem aicc_denominator_nonzero (n k : ℕ) (p : ℝ) (hn : 1 ≤ n) (hk : 1 ≤ k)
    (hp : 0 < p) :
    aiccCorrection n (p * k) =
      (2 * (p * k) ^ 2 + 2 * (p * k)) / aiccDenominator n (p * k) ∧
    aiccDenominator n (p * k) ≠ 0 ∧
    (p * k = (n : ℝ) - 1 →
      p * k ≥ (n : ℝ) - 1 ∧ aiccDenominator n (p * k) = 2) := by
  refine ⟨aiccCorrection_eq_div n (p * k), ?_, fun h => ⟨le_of_eq h.symm, ?_⟩⟩
  · unfold aiccDenominator
    by_cases hge : p * k ≥ (n : ℝ) - 1
    · rw [if_pos hge]
      have : (0 : ℝ) < -(n : ℝ) + p * k + 3 := by linarith
      exact ne_of_gt this
    · rw [if_neg hge]
      push_neg at hge
      have : (0 : ℝ) < (n : ℝ) - p * k - 1 := by linarith
      exact ne_of_gt this
  · unfold aiccDenominator
    rw [if_pos (le_of_eq h.symm), h]
    ring

/-- Witness for C3: `n = 3`, `k = 2`, `p = 1` sits exactly on the boundary
`p*k = n - 1 = 2`; the selected denominator is `2`, not zero. -/
theorem aicc_denominator_nonzero_witness :
    aiccDenominator 3 (1 * ((2 : ℕ) : ℝ)) ≠ 0 ∧
    aiccDenominator 3 (1 * ((2 : ℕ) : ℝ)) = 2 := by
  have h := aicc_denominator_nonzero 3 2 1 (by norm_num) (by norm_num)
    (by norm_num)
  exact ⟨h.2.1, (h.2.2 (by push_cast; norm_num)).2⟩

/-- C4 counterexample: at `n = 4` the correction at `pk = n - 2 = 2`
(denominator branch `n - pk - 1`) equals `12` and the correction at
`pk = n = 4` (branch `-n + pk + 3`) equals `40/3`; both are strictly
positive, so their signs are NOT opposite, refuting the claim. -/
theorem aicc_correction_sign_counterexample :
    aiccCorrection 4 2 = 12 ∧ aiccCorrection 4 4 = 40 / 3 ∧
    0 < aiccCorrection 4 2 ∧ 0 < aiccCorrection 4 4 := by
  have h2 : aiccCorrection 4 2 = 12 := by
    unfold aiccCorrection
    rw [if_neg (by norm_num)]
    norm_num
  have h4 : aiccCorrection 4 4 = 40 / 3 := by
    unfold aiccCorrection
    rw [if_pos (by norm_num)]
    norm_num
  exact ⟨h2, h4, by rw [h2]; norm_num, by rw [h4]; norm_num⟩

/-- C4 amended: the AICC corrections at `pk = n - 2` (branch `n - pk - 1`)
and at `pk = n` (branch `-n + pk + 3`) have the SAME sign — both strictly
positive — for every observation count `n ≥ 3`; the branch denominators are
`1` and `3` respectively, both positive, so the correction's sign never
flips between the two branches. -/
theorem aicc_correction_same_sign (n : ℕ) (hn : 3 ≤ n) :
    0 < aiccCorrection n ((n : ℝ) - 2) ∧ 0 < aiccCorrection n (n : ℝ) := by
  have hn' : (3 : ℝ) ≤ (n : ℝ) := by exact_mod_cast hn
  constructor
  · unfold aiccCorrection
    rw [if_neg (by intro hge; simp only [ge_iff_le] at hge; linarith)]
    have hden : (n : ℝ) - ((n : ℝ) - 2) - 1 = 1 := by ring
    rw [hden, div_one]
    nlinarith [sq_nonneg ((n : ℝ) - 2)]
  · unfold aiccCorrection
    rw [if_pos (by linarith : (n : ℝ) ≥ (n : ℝ) - 1)]
    have hden : -(n : ℝ) + (n : ℝ) + 3 = 3 := by ring
    rw [hden]
    apply div_pos
    · nlinarith
    · norm_num

/-- Witness for the amended C4 at `n = 4`. -/
theorem aicc_correction_same_sign_witness :
    0 < aiccCorrection 4 (((4 : ℕ) : ℝ) - 2) ∧
    0 < aiccCorrection 4 ((4 : ℕ) : ℝ) := by
  exact ⟨(aicc_correction_same_sign 4 (by norm_num)).1,
    (aicc_correction_same_sign 4 (by norm_num)).2⟩

/-- C1: the record-collection loop of `fit`, run on a record whose solver
block yields one sublattice configuration while the flattened values number
two, collects 1 feature row against 2 target values.  The loop completes and
returns the misaligned pair: the source raises no `DataAlignmentError`
anywhere (no such check exists in `manual_fitting.py`), so the mismatched
arrays flow into the downstream regression. -/
theorem collect_misaligned_no_error :
    (collectData "FCC_A1" (fun x => -x) (fun _ _ => []) [misalignedRecord]).1.length = 1 ∧
    (collectData "FCC_A1" (fun x => -x) (fun _ _ => []) [misalignedRecord]).2.length = 2 ∧
    (1 : ℕ) ≠ 2 := by
  refine ⟨rfl, rfl, by decide⟩

/-- `_generate_phase_records` is a no-op when the canonical key is already
cached. -/
theorem generatePhaseRecords_hit {Mo Rec : Type} (bm : List String → Mo)
    (br : List String → Mo → Rec) (co : Mo → List String)
    (st : EqGenState Mo Rec) (c : List String)
    (h : st.models.any (fun p => decide (p.1 = canonKey c)) = true) :
    generatePhaseRecords bm br co st c = st := by
  unfold generatePhaseRecords
  simp [h]

/-- After `_generate_phase_records` runs for `c`, the canonical key of `c` is
cached. -/
theorem generatePhaseRecords_mem {Mo Rec : Type} (bm : List String → Mo)
    (br : List String → Mo → Rec) (co : Mo → List String)
    (st : EqGenState Mo Rec) (c : List String) :
    ((generatePhaseRecords bm br co st c).models.any
      (fun p => decide (p.1 = canonKey c))) = true := by
  unfold generatePhaseRecords
  by_cases h : st.models.any (fun p => decide (p.1 = canonKey c)) <;>
    simp [h]

/-- C7: two component collections with the same sorted, deduplicated
canonical form hit the same cache slot of the
`EquilibriumSiteFractionGenerator`: after building the context for `A`, the
request for `B` leaves the whole cache state untouched (no reconstruction)
and looks up the identical cached bundle of model, phase record, and ordered
constituent list. -/
theorem equilibrium_cache_no_rebuild {Mo Rec : Type} (bm : List String → Mo)
    (br : List String → Mo → Rec) (co : Mo → List String)
    (st : EqGenState Mo Rec) (A B : List String)
    (h : canonKey A = canonKey B) :
    generatePhaseRecords bm br co (generatePhaseRecords bm br co st A) B =
      generatePhaseRecords bm br co st A ∧
    cachedContext (generatePhaseRecords bm br co st A) B =
      cachedContext (generatePhaseRecords bm br co st A) A := by
  constructor
  · exact generatePhaseRecords_hit bm br co _ B
      (h ▸ generatePhaseRecords_mem bm br co st A)
  · unfold cachedContext
    rw [h]

/-- Witness for C7 with `A = ["B", "A", "VA", "A"]` and
`B = ["A", "B", "VA"]` (same canonical form `["A", "B", "VA"]`), trivial
builders, and an empty starting cache. -/
theorem equilibrium_cache_no_rebuild_witness :
    canonKey ["B", "A", "VA", "A"] = canonKey ["A", "B", "VA"] ∧
    (generatePhaseRecords (fun _ => ()) (fun _ _ => ()) (fun _ => [])
        (generatePhaseRecords (fun _ => ()) (fun _ _ => ()) (fun _ => [])
          ⟨[], [], []⟩ ["B", "A", "VA", "A"]) ["A", "B", "VA"] =
      generatePhaseRecords (fun _ => ()) (fun _ _ => ()) (fun _ => [])
        ⟨[], [], []⟩ ["B", "A", "VA", "A"]) ∧
    (cachedContext
        (generatePhaseRecords (fun _ => ()) (fun _ _ => ()) (fun _ => [])
          ⟨[], [], []⟩ ["B", "A", "VA", "A"]) ["A", "B", "VA"] =
      cachedContext
        (generatePhaseRecords (fun _ => ()) (fun _ _ => ()) (fun _ => [])
          ⟨[], [], []⟩ ["B", "A", "VA", "A"]) ["B", "A", "VA", "A"]) := by
  have hc : canonKey ["B", "A", "VA", "A"] = canonKey ["A", "B", "VA"] := by
    decide
  have h := equilibrium_cache_no_rebuild (fun _ => ()) (fun _ _ => ())
    (fun _ => []) ⟨[], [], []⟩ ["B", "A", "VA", "A"] ["A", "B", "VA"] hc
  exact ⟨hc, h.1, h.2⟩

/-- C8: `SiteFractionGenerator.__call__` on components containing `c ≠ VA`
with the single mole-fraction condition `X_c = x` strips the vacancy, seeds
every remaining component at occupancy 1, subtracts `x` from every tracked
share, and assigns exactly `x` to `c`: the resulting composition maps `c` to
`x`, every other non-vacancy component to `1 - x`, and omits `VA`. -/
theorem site_fraction_generator_composition (cs : List String) (c : String)
    (x : ℚ) (hc : c ∈ cs) (hcva : c ≠ "VA") :
    dictGet? (siteFractionComposition cs [(StateVar.moleFrac c, x)]) c = some x ∧
    (∀ c', c' ∈ cs → c' ≠ "VA" → c' ≠ c →
      dictGet? (siteFractionComposition cs [(StateVar.moleFrac c, x)]) c' =
        some (1 - x)) ∧
    dictGet? (siteFractionComposition cs [(StateVar.moleFrac c, x)]) "VA" =
      none := by
  have hfold : siteFractionComposition cs [(StateVar.moleFrac c, x)] =
      dictSet
        ((cs.dedup.filter (fun c0 => c0 ≠ "VA")).map (fun c0 => (c0, (1 : ℚ) - x)))
        c x := by
    unfold siteFractionComposition
    simp only [List.foldl_cons, List.foldl_nil, List.map_map]
    rfl
  rw [hfold]
  refine ⟨dictGet?_set_self _ c x, fun c' hc' hc'va hc'c => ?_, ?_⟩
  · rw [dictGet?_set_ne _ c c' x hc'c]
    exact dictGet?_const_of_mem _ _ c'
      (List.mem_filter.mpr ⟨List.mem_dedup.mpr hc', by simp [hc'va]⟩)
  · rw [dictGet?_set_ne _ c "VA" x (Ne.symm hcva)]
    exact dictGet?_const_of_not_mem _ _ "VA" (by simp [List.mem_filter])

/-- Witness for C8, the spec's end-to-end scenario: components
`{A, B, VA}`, condition `X_B = 3/10`; the composition is
`{A: 7/10, B: 3/10}` with the vacancy excluded. -/
theorem site_fraction_generator_composition_witness :
    dictGet? (siteFractionComposition ["A", "B", "VA"]
      [(StateVar.moleFrac "B", 3/10)]) "B" = some (3/10) ∧
    dictGet? (siteFractionComposition ["A", "B", "VA"]
      [(StateVar.moleFrac "B", 3/10)]) "A" = some (7/10) ∧
    dictGet? (siteFractionComposition ["A", "B", "VA"]
      [(StateVar.moleFrac "B", 3/10)]) "VA" = none := by
  have h := site_fraction_generator_composition ["A", "B", "VA"] "B" (3/10)
    (by simp) (by simp)
  refine ⟨h.1, ?_, h.2.2⟩
  have hA := h.2.1 "A" (by simp) (by simp) (by simp)
  rw [hA]
  norm_num

/-- C10: `EquilibriumSiteFractionGenerator.__call__` writes its override
conditions into the caller-supplied conditions mapping in place: afterwards
the mapping binds the mole count `N` to 1 and the reference energy `GE` to 0
(the default overrides), while every other key keeps its previous binding. -/
theorem equilibrium_call_overrides_conditions (conds : Conditions) :
    dictGet? (applyOverrides defaultOverride conds) StateVar.molesN = some 1 ∧
    dictGet? (applyOverrides defaultOverride conds) StateVar.refGE = some 0 ∧
    ∀ key, key ≠ StateVar.molesN → key ≠ StateVar.refGE →
      dictGet? (applyOverrides defaultOverride conds) key =
        dictGet? conds key := by
  have hfold : applyOverrides defaultOverride conds =
      dictSet (dictSet conds StateVar.molesN 1) StateVar.refGE 0 := rfl
  rw [hfold]
  refine ⟨?_, dictGet?_set_self _ _ _, fun key h1 h2 => ?_⟩
  · rw [dictGet?_set_ne _ _ _ _ (by decide), dictGet?_set_self]
  · rw [dictGet?_set_ne _ _ _ _ h2, dictGet?_set_ne _ _ _ _ h1]

/-- Witness for C10: a conditions dict `{T: 500}`; after the call `N = 1`,
`GE = 0` are present and `T` is unchanged. -/
theorem equilibrium_call_overrides_conditions_witness :
    dictGet? (applyOverrides defaultOverride [(StateVar.tempT, 500)])
      StateVar.molesN = some 1 ∧
    dictGet? (applyOverrides defaultOverride [(StateVar.tempT, 500)])
      StateVar.refGE = some 0 ∧
    dictGet? (applyOverrides defaultOverride [(StateVar.tempT, 500)])
      StateVar.tempT = some 500 := by
  have h := equilibrium_call_overrides_conditions [(StateVar.tempT, 500)]
  refine ⟨h.1, h.2.1, ?_⟩
  rw [h.2.2 StateVar.tempT (by decide) (by decide)]
  rfl

theorem accumStep_symbols (mult : MobExpr) (st : FitState) (tc : TermKey × ℚ) :
    (accumStep mult st tc).symbols =
      st.symbols ++ [(st.vIndex, MobExpr.piecewise 1 10000 (MobExpr.const tc.2))] :=
  rfl

theorem accumStep_vIndex (mult : MobExpr) (st : FitState) (tc : TermKey × ℚ) :
    (accumStep mult st tc).vIndex = st.vIndex + 1 := rfl

/-- One fitting pass appends exactly the minted symbol-table entries for its
coefficients, starting at the incoming `vIndex`, and advances `vIndex` by the
number of contributions. -/
theorem accumPass_symbols (mult : MobExpr) (cs : List (TermKey × ℚ)) :
    ∀ st : FitState,
      (accumPass mult cs st).symbols =
        st.symbols ++ mintSyms st.vIndex (cs.map Prod.snd) ∧
      (accumPass mult cs st).vIndex = st.vIndex + cs.length := by
  induction cs with
  | nil => intro st; simp [accumPass, mintSyms]
  | cons c cs ih =>
    intro st
    have h := ih (accumStep mult st c)
    have hstep : List.foldl (accumStep mult) (accumStep mult st c) cs =
        accumPass mult cs (accumStep mult st c) := rfl
    constructor
    · show (List.foldl (accumStep mult) st (c :: cs)).symbols = _
      rw [List.foldl_cons, hstep, h.1, accumStep_symbols, accumStep_vIndex]
      simp [mintSyms, List.append_assoc]
    · show (List.foldl (accumStep mult) st (c :: cs)).vIndex = _
      rw [List.foldl_cons, hstep, h.2, accumStep_vIndex]
      simp only [List.length_cons]
      omega

theorem mintSyms_keys (cs : List ℚ) :
    ∀ i, (mintSyms i cs).map Prod.fst = List.range' i cs.length := by
  induction cs with
  | nil => intro i; rfl
  | cons c cs ih => intro i; simp [mintSyms, ih, List.range'_succ]

theorem mintSyms_append (a b : List ℚ) :
    ∀ i, mintSyms i (a ++ b) = mintSyms i a ++ mintSyms (i + a.length) b := by
  induction a with
  | nil => intro i; simp [mintSyms]
  | cons c a ih =>
    intro i
    have harith : i + 1 + a.length = i + (a.length + 1) := by omega
    show (i, MobExpr.piecewise 1 10000 (MobExpr.const c)) :: mintSyms (i + 1) (a ++ b) =
      ((i, MobExpr.piecewise 1 10000 (MobExpr.const c)) :: mintSyms (i + 1) a) ++
        mintSyms (i + (c :: a).length) b
    rw [List.cons_append, ih (i + 1), List.length_cons, harith]

/-- The symbol table produced by the two passes of `fit`. -/
theorem fitAccum_symbols (qs ds : List (TermKey × ℚ)) (v0 : ℕ) :
    (fitAccum qs ds v0).symbols =
      mintSyms v0 ((qs ++ ds).map Prod.snd) := by
  have h1 := accumPass_symbols (MobExpr.const 1) qs ⟨[], [], v0⟩
  have h2 := accumPass_symbols MobExpr.tempT ds
    (accumPass (MobExpr.const 1) qs ⟨[], [], v0⟩)
  unfold fitAccum
  rw [h2.1, h1.1, h1.2]
  have hv : (FitState.mk [] [] v0).vIndex = v0 := rfl
  rw [hv]
  rw [List.map_append, mintSyms_append]
  simp

/-- C6: over the whole run of `fit` (Q pass then D0 pass) the minted symbol
indices are exactly the consecutive block starting at the database's next
free variable index `v0`: they are pairwise distinct (so all emitted names
are unique) and all are at least `v0` (so none collides with a pre-existing
coefficient, which by `find_last_variable`'s contract all have indices below
`v0`). -/
theorem fit_symbols_unique_monotonic (qs ds : List (TermKey × ℚ)) (v0 : ℕ) :
    (fitAccum qs ds v0).symbols.map Prod.fst =
      List.range' v0 (qs.length + ds.length) ∧
    ((fitAccum qs ds v0).symbols.map Prod.fst).Nodup ∧
    ((fitAccum qs ds v0).symbols.map Prod.fst).all
      (fun i => decide (v0 ≤ i)) = true := by
  have hkeys : (fitAccum qs ds v0).symbols.map Prod.fst =
      List.range' v0 (qs.length + ds.length) := by
    rw [fitAccum_symbols, mintSyms_keys]
    simp
  refine ⟨hkeys, ?_, ?_⟩
  · rw [hkeys]; exact List.nodup_range' ..
  · rw [hkeys, List.all_eq_true]
    intro i hi
    exact decide_eq_true_eq.mpr (List.mem_range'_1.mp hi).1

/-- C5: two selected contributions with the same `(constituent_array, order)`
key — one from the Q pass (multiplier `1`, coefficient `c1`) and one from the
D0 pass (multiplier `v.T`, coefficient `c2`) — are accumulated into a SINGLE
`MobilityTerm` entry (no duplicate is created), whose expression evaluates,
under the run's own symbol table on the symbols' validity window, to the sum
`c1 + c2*t` of both contributions; the same single entry and the same sum
result when the passes hit the key in the opposite order. -/
theorem fit_merges_duplicate_terms (ca : List (List String)) (od : ℕ)
    (c1 c2 : ℚ) (v0 : ℕ) (t : ℚ) (h1 : 1 ≤ t) (h2 : t < 10000) :
    ((accumPass MobExpr.tempT [((ca, od), c2)]
        (accumPass (MobExpr.const 1) [((ca, od), c1)]
          ⟨[], [], v0⟩)).model.countP
        (fun m => termMatches m (ca, od)) = 1) ∧
    ((accumPass MobExpr.tempT [((ca, od), c2)]
        (accumPass (MobExpr.const 1) [((ca, od), c1)]
          ⟨[], [], v0⟩)).model.headI.expr.eval
        (tableEval (accumPass MobExpr.tempT [((ca, od), c2)]
          (accumPass (MobExpr.const 1) [((ca, od), c1)] ⟨[], [], v0⟩)).symbols t) t
      = c1 + c2 * t) ∧
    ((accumPass (MobExpr.const 1) [((ca, od), c1)]
        (accumPass MobExpr.tempT [((ca, od), c2)]
          ⟨[], [], v0⟩)).model.countP
        (fun m => termMatches m (ca, od)) = 1) ∧
    ((accumPass (MobExpr.const 1) [((ca, od), c1)]
        (accumPass MobExpr.tempT [((ca, od), c2)]
          ⟨[], [], v0⟩)).model.headI.expr.eval
        (tableEval (accumPass (MobExpr.const 1) [((ca, od), c1)]
          (accumPass MobExpr.tempT [((ca, od), c2)] ⟨[], [], v0⟩)).symbols t) t
      = c1 + c2 * t) := by
  have hmatch : ∀ e, termMatches ⟨ca, od, e⟩ (ca, od) = true := by
    intro e
    simp [termMatches]
  have hQ : accumPass (MobExpr.const 1) [((ca, od), c1)] ⟨[], [], v0⟩ =
      ⟨[⟨ca, od, MobExpr.add (MobExpr.const 0)
          (MobExpr.mul (MobExpr.sym v0) (MobExpr.const 1))⟩],
       [(v0, MobExpr.piecewise 1 10000 (MobExpr.const c1))], v0 + 1⟩ := by
    simp [accumPass, accumStep, updateFirst, hmatch]
  have hQD : accumPass MobExpr.tempT [((ca, od), c2)]
      (accumPass (MobExpr.const 1) [((ca, od), c1)] ⟨[], [], v0⟩) =
      ⟨[⟨ca, od, MobExpr.add
          (MobExpr.add (MobExpr.const 0)
            (MobExpr.mul (MobExpr.sym v0) (MobExpr.const 1)))
          (MobExpr.mul (MobExpr.sym (v0 + 1)) MobExpr.tempT)⟩],
       [(v0, MobExpr.piecewise 1 10000 (MobExpr.const c1)),
        (v0 + 1, MobExpr.piecewise 1 10000 (MobExpr.const c2))], v0 + 2⟩ := by
    rw [hQ]
    simp [accumPass, accumStep, updateFirst, hmatch]
  have hD : accumPass MobExpr.tempT [((ca, od), c2)] ⟨[], [], v0⟩ =
      ⟨[⟨ca, od, MobExpr.add (MobExpr.const 0)
          (MobExpr.mul (MobExpr.sym v0) MobExpr.tempT)⟩],
       [(v0, MobExpr.piecewise 1 10000 (MobExpr.const c2))], v0 + 1⟩ := by
    simp [accumPass, accumStep, updateFirst, hmatch]
  have hDQ : accumPass (MobExpr.const 1) [((ca, od), c1)]
      (accumPass MobExpr.tempT [((ca, od), c2)] ⟨[], [], v0⟩) =
      ⟨[⟨ca, od, MobExpr.add
          (MobExpr.add (MobExpr.const 0)
            (MobExpr.mul (MobExpr.sym v0) MobExpr.tempT))
          (MobExpr.mul (MobExpr.sym (v0 + 1)) (MobExpr.const 1))⟩],
       [(v0, MobExpr.piecewise 1 10000 (MobExpr.const c2)),
        (v0 + 1, MobExpr.piecewise 1 10000 (MobExpr.const c1))], v0 + 2⟩ := by
    rw [hD]
    simp [accumPass, accumStep, updateFirst, hmatch]
  have htab0 : ∀ e1 e2 : MobExpr,
      tableEval [(v0, e1), (v0 + 1, e2)] t v0 = e1.eval (fun _ => 0) t := by
    intro e1 e2
    simp [tableEval, List.lookup]
  have htab1 : ∀ e1 e2 : MobExpr,
      tableEval [(v0, e1), (v0 + 1, e2)] t (v0 + 1) = e2.eval (fun _ => 0) t := by
    intro e1 e2
    have hne : ((v0 + 1 == v0) : Bool) = false := by
      simp [Nat.succ_ne_self]
    simp [tableEval, List.lookup, hne]
  have hpc : ∀ c : ℚ,
      (MobExpr.piecewise 1 10000 (MobExpr.const c)).eval (fun _ => 0) t = c := by
    intro c
    simp [MobExpr.eval, h1, h2]
  refine ⟨?_, ?_, ?_, ?_⟩
  · rw [hQD]
    simp [List.countP_cons, hmatch]
  · rw [hQD]
    simp only [List.headI, MobExpr.eval, htab0, htab1, hpc,
      if_pos (show (1 : ℚ) ≤ t ∧ t < 10000 from ⟨h1, h2⟩)]
    ring
  · rw [hDQ]
    simp [List.countP_cons, hmatch]
  · rw [hDQ]
    simp only [List.headI, MobExpr.eval, htab0, htab1, hpc,
      if_pos (show (1 : ℚ) ≤ t ∧ t < 10000 from ⟨h1, h2⟩)]
    ring

/-- Witness for C5 at `ca = [["A"]]`, `od = 0`, `c1 = 2`, `c2 = 3`,
`v0 = 0`, `t = 300`. -/
theorem fit_merges_duplicate_terms_witness :
    (1 : ℚ) ≤ 300 ∧ (300 : ℚ) < 10000 ∧
    ((accumPass MobExpr.tempT [(([["A"]], 0), 3)]
        (accumPass (MobExpr.const 1) [(([["A"]], 0), 2)]
          ⟨[], [], 0⟩)).model.countP
        (fun m => termMatches m ([["A"]], 0)) = 1) ∧
    ((accumPass MobExpr.tempT [(([["A"]], 0), 3)]
        (accumPass (MobExpr.const 1) [(([["A"]], 0), 2)]
          ⟨[], [], 0⟩)).model.headI.expr.eval
        (tableEval (accumPass MobExpr.tempT [(([["A"]], 0), 3)]
          (accumPass (MobExpr.const 1) [(([["A"]], 0), 2)] ⟨[], [], 0⟩)).symbols
          300) 300
      = 2 + 3 * 300) := by
  have h := fit_merges_duplicate_terms [["A"]] 0 2 3 0 300 (by norm_num)
    (by norm_num)
  exact ⟨by norm_num, by norm_num, h.1, h.2.1⟩

/-- C9: in the value returned by `fit`, the symbol table is exactly the
minted piecewise guards — symbol `v0 + j` is registered with value
`Piecewise((coef_j, 1 <= T < 10000), (0, True))` for the `j`-th selected
coefficient over both passes — whose evaluation is the fitted coefficient
inside the window and `0` otherwise; and every accumulated term's total
expression is additionally wrapped in the outer guard
`Piecewise((expr, 1 <= T < 6000), (0, True))`, which evaluates to the
accumulated expression inside the guard window and to `0` otherwise. -/
theorem fit_piecewise_guards (qs ds : List (TermKey × ℚ)) (v0 : ℕ) :
    (fitRun qs ds v0).2 = mintSyms v0 ((qs ++ ds).map Prod.snd) ∧
    (∀ σ : ℕ → ℚ, ∀ t c : ℚ,
      (MobExpr.piecewise 1 10000 (MobExpr.const c)).eval σ t =
        if 1 ≤ t ∧ t < 10000 then c else 0) ∧
    (fitRun qs ds v0).1 = (fitAccum qs ds v0).model.map
      (fun f => ⟨f.constituent_array, f.order, MobExpr.piecewise 1 6000 f.expr⟩) ∧
    (∀ e : MobExpr, ∀ σ : ℕ → ℚ, ∀ t : ℚ,
      (MobExpr.piecewise 1 6000 e).eval σ t =
        if 1 ≤ t ∧ t < 6000 then e.eval σ t else 0) :=
  ⟨fitAccum_symbols qs ds v0, fun _ _ _ => rfl, rfl, fun _ _ _ => rfl⟩

end ManualFitting
